import Mathlib

/-!
Verification of the data-preparation module of the US renewable-energy
repository (`src/01_data_preparation/src/data_loader.py`).

The module works on pandas DataFrames.  A consumption table is a table with a
unique, sorted sequential index whose named columns hold numeric-or-missing
values; a missing value (pandas `NaN`) is modelled as `none`, a present value
as `some q` with `q : ℚ`.  Because the index is required by the data model to
be unique and sorted, pandas label slicing (`df.loc[:i0]`, `df.loc[i0:]`)
coincides with positional slicing, and `interpolate(method='linear')`
interpolates in position space; the embedding therefore works with positions.

Stateful behaviour (pandas objects are mutable and passed by reference) is
modelled by state passing: the `_call` variants return the caller's table as
it stands after the call together with the returned value, and a raised
exception (pandas `KeyError` on a missing column, a parse error in
`pd.to_datetime`) is modelled as `none` in an `Option` result.
-/

/-- A consumption table: a sequential index together with named columns of
numeric-or-missing values.  This is the data model consumed by
`imputar_datos_consumo`. -/
structure DataFrame where
  index : List ℤ
  cols : List (String × List (Option ℚ))
deriving DecidableEq, Repr

/-- The caller-established invariant of the data model: the index values are
strictly increasing, hence unique and sorted. -/
def DataFrame.SortedIndex (df : DataFrame) : Prop :=
  df.index.Chain' (fun a b => a < b)

/-- Column lookup `df[c]`: the stored list of the first column named `c`,
`none` when no column is named `c` (pandas raises `KeyError` there). -/
def DataFrame.getCol? (df : DataFrame) (c : String) : Option (List (Option ℚ)) :=
  (df.cols.find? (fun p => p.1 == c)).map Prod.snd

/-- Column assignment `df[c] = xs` on an existing column: every column named
`c` now stores `xs`; all other columns and the index are untouched. -/
def DataFrame.setCol (df : DataFrame) (c : String) (xs : List (Option ℚ)) : DataFrame :=
  ⟨df.index, df.cols.map (fun p => if p.1 = c then (p.1, xs) else p)⟩

/-- Position and value of the first non-missing entry of a column: the
positional reading of `Series.first_valid_index` on a unique sorted index. -/
def firstKnown : List (Option ℚ) → Option (Nat × ℚ)
  | [] => none
  | some v :: _ => some (0, v)
  | none :: rest => (firstKnown rest).map (fun q => (q.1 + 1, q.2))

/-- `Series.first_valid_index`, positionally: the position of the first
non-missing entry, `none` for an entirely missing column. -/
def first_valid_index (xs : List (Option ℚ)) : Option Nat :=
  (firstKnown xs).map Prod.fst

/-- The nearest known observation strictly before position `p`, found by
scanning downward from `p - 1`. -/
def prevKnown (xs : List (Option ℚ)) : Nat → Option (Nat × ℚ)
  | 0 => none
  | p + 1 =>
    match xs[p]? with
    | some (some v) => some (p, v)
    | _ => prevKnown xs p

/-- The nearest known observation strictly after position `p`. -/
def nextKnown (xs : List (Option ℚ)) (p : Nat) : Option (Nat × ℚ) :=
  (firstKnown (xs.drop (p + 1))).map (fun q => (p + 1 + q.1, q.2))

/-- The value of `Series.interpolate(method='linear', limit_direction='both')`
at position `p`: a known value stays; a missing value bracketed by its nearest
known values at positions `pl < p < ph` becomes the positional linear
interpolant between them; a missing value with known values on one side only
copies the nearest known value; a missing value in a column with no known
value at all stays missing. -/
def interpAt (xs : List (Option ℚ)) (p : Nat) : Option ℚ :=
  match xs[p]? with
  | some (some v) => some v
  | some none =>
    match prevKnown xs p, nextKnown xs p with
    | some pl, some ph =>
      some (pl.2 + (ph.2 - pl.2) * (((p : ℚ) - (pl.1 : ℚ)) / ((ph.1 : ℚ) - (pl.1 : ℚ))))
    | some pl, none => some pl.2
    | none, some ph => some ph.2
    | none, none => none
  | none => none

/-- `Series.interpolate(method='linear', limit_direction='both')` on a whole
column. -/
def interpolate (xs : List (Option ℚ)) : List (Option ℚ) :=
  (List.range xs.length).map (fun p => interpAt xs p)

/-- The effect of `df_imputado.loc[:i0, c] = df_imputado.loc[:i0, c].fillna(0)`
on the stored column: every missing entry at a position `≤ i0` becomes `0`
(label slicing is inclusive on both ends). -/
def fillZeroUpto : Nat → List (Option ℚ) → List (Option ℚ)
  | _, [] => []
  | 0, x :: rest => some (x.getD 0) :: rest
  | i + 1, x :: rest => some (x.getD 0) :: fillZeroUpto i rest

/-- `Series.fillna(0)` on a whole column. -/
def fillZeroAll (xs : List (Option ℚ)) : List (Option ℚ) :=
  xs.map (fun x => some (x.getD 0))

/-- The per-column body of `imputar_datos_consumo`: locate the first valid
position; when it exists, fill missing entries up to it with `0` and then
interpolate the column from it on (the slice written back over positions
`i0..end`); when the column is entirely missing, fill it with `0`. -/
def imputar_columna (xs : List (Option ℚ)) : List (Option ℚ) :=
  match first_valid_index xs with
  | some i0 => (fillZeroUpto i0 xs).take i0 ++ interpolate ((fillZeroUpto i0 xs).drop i0)
  | none => fillZeroAll xs

/-- The loop of `imputar_datos_consumo` over `columnas_consumo`, acting on the
copy `df_imputado`; a listed name with no column raises `KeyError`, modelled
as `none`. -/
def imputar_loop : DataFrame → List String → Option DataFrame
  | dfI, [] => some dfI
  | dfI, c :: rest =>
    match dfI.getCol? c with
    | some xs => imputar_loop (dfI.setCol c (imputar_columna xs)) rest
    | none => none

/-- `imputar_datos_consumo df columnas`: copy the table and impute each listed
column on the copy `df_imputado`. -/
def imputar_datos_consumo (df : DataFrame) (columnas : List String) : Option DataFrame :=
  imputar_loop df columnas

/-- The call as the caller observes it: the first component is the caller's
table after the call, the second the returned table.  The source copies `df`
on entry (`df_imputado = df.copy()`) and every subsequent write targets the
copy, so the caller's table after the call is `df` itself, whatever happens. -/
def imputar_datos_consumo_call (df : DataFrame) (columnas : List String) :
    DataFrame × Option DataFrame :=
  (df, imputar_datos_consumo df columnas)

/-- A raw cell of the tables handled by `crear_indice_fecha`: missing, a
number, or a monthly timestamp (`pd.to_datetime(..., format='%Y-%m')` yields
the first instant of the month, identified here by its year and month). -/
inductive Cell where
  | na : Cell
  | num : ℚ → Cell
  | dt : ℤ → ℤ → Cell
deriving DecidableEq, Repr

/-- A raw table: named columns of raw cells (`crear_indice_fecha` runs before
the datetime index exists, so the table is just its columns). -/
structure Table where
  cols : List (String × List Cell)
deriving DecidableEq, Repr

/-- Column lookup on a raw table. -/
def Table.getCol? (t : Table) (c : String) : Option (List Cell) :=
  (t.cols.find? (fun p => p.1 == c)).map Prod.snd

/-- The membership test `c in df.columns`. -/
def Table.hasCol (t : Table) (c : String) : Bool :=
  (t.getCol? c).isSome

/-- `df.drop(names, axis=1)`: remove the named columns, keep the others in
order. -/
def Table.dropCols (t : Table) (names : List String) : Table :=
  ⟨t.cols.filter (fun p => !(names.contains p.1))⟩

/-- Models `pd.to_datetime(str(y) + '-' + str(m), format='%Y-%m')` on one row:
the conversion succeeds exactly when both cells are integer-valued (integer
columns print without a fractional part), the month is a month number, and the
resulting month-start timestamp is representable: the library's nanosecond
timestamps span 1677-09-21 through 2262-04-11, so the representable month
starts are 1677-10 through 2262-04, encoded below by the month count
`12 * year + (month - 1)` lying between `12 * 1677 + 9` and `12 * 2262 + 3`.
Every other cell pair raises (a parse error for non-integer or out-of-range
text such as year `0` or a five-digit year, an out-of-bounds error for a
parseable year outside the timestamp span). -/
def to_datetime_ym : Cell → Cell → Option Cell
  | Cell.num y, Cell.num m =>
    if y.den = 1 ∧ m.den = 1 ∧ 1 ≤ m.num ∧ m.num ≤ 12 ∧
        12 * 1677 + 9 ≤ 12 * y.num + (m.num - 1) ∧
        12 * y.num + (m.num - 1) ≤ 12 * 2262 + 3 then
      some (Cell.dt y.num m.num)
    else none
  | _, _ => none

/-- The row-wise datetime column
`pd.to_datetime(df['Year'].astype(str) + '-' + df['Month'].astype(str), format='%Y-%m')`;
the whole conversion raises when any row fails to parse. -/
def datetimeCol (ys ms : List Cell) : Option (List Cell) :=
  (ys.zip ms).mapM (fun p => to_datetime_ym p.1 p.2)

/-- `crear_indice_fecha df` as the caller observes it: the first component is
the caller's table after the call, the second the returned table (`none`
models a raised exception).  When `Datetime` is absent and both `Year` and
`Month` are present, the source executes `df['Datetime'] = pd.to_datetime(...)`,
an in-place append of a new last column on the caller's table, and then
rebinds its local `df` to `df.drop(['Year', 'Month'], axis=1)`, a fresh table;
in every other case the table passes through unchanged. -/
def crear_indice_fecha (df : Table) : Table × Option Table :=
  if df.hasCol "Datetime" then (df, some df)
  else if df.hasCol "Year" && df.hasCol "Month" then
    match df.getCol? "Year", df.getCol? "Month" with
    | some ys, some ms =>
      match datetimeCol ys ms with
      | some dts => (⟨df.cols ++ [("Datetime", dts)]⟩,
          some (Table.dropCols ⟨df.cols ++ [("Datetime", dts)]⟩ ["Year", "Month"]))
      | none => (df, none)
    | _, _ => (df, none)
  else (df, some df)

example : imputar_columna [none, none, some 5, none, some 10] =
    [some 0, some 0, some 5, some (15 / 2), some 10] := by
  norm_num [imputar_columna, first_valid_index, firstKnown, fillZeroUpto, interpolate,
    interpAt, prevKnown, nextKnown, List.range_succ]

example : imputar_columna [none, some 3, none, none] = [some 0, some 3, some 3, some 3] := by
  norm_num [imputar_columna, first_valid_index, firstKnown, fillZeroUpto, interpolate,
    interpAt, prevKnown, nextKnown, List.range_succ]

example : imputar_columna [none, none, some 7, none] = [some 0, some 0, some 7, some 7] := by
  norm_num [imputar_columna, first_valid_index, firstKnown, fillZeroUpto, interpolate,
    interpAt, prevKnown, nextKnown, List.range_succ]

example : imputar_columna [none, none, none] = [some 0, some 0, some 0] := by
  norm_num [imputar_columna, first_valid_index, firstKnown, fillZeroAll]

example :
    crear_indice_fecha ⟨[("Year", [Cell.num 2020]), ("Month", [Cell.num 5]),
      ("Load", [Cell.num 1])]⟩ =
    (⟨[("Year", [Cell.num 2020]), ("Month", [Cell.num 5]), ("Load", [Cell.num 1]),
        ("Datetime", [Cell.dt 2020 5])]⟩,
     some ⟨[("Load", [Cell.num 1]), ("Datetime", [Cell.dt 2020 5])]⟩) := by
  rfl

/-! ### Basic facts about the column scanning primitives -/

theorem firstKnown_get {xs : List (Option ℚ)} :
    ∀ {i : Nat} {v : ℚ}, firstKnown xs = some (i, v) → xs[i]? = some (some v) := by
  induction xs with
  | nil => intro i v h; simp [firstKnown] at h
  | cons x rest ih =>
    intro i v h
    cases x with
    | some w =>
      simp only [firstKnown, Option.some.injEq, Prod.mk.injEq] at h
      obtain ⟨h1, h2⟩ := h
      subst h1; subst h2
      simp
    | none =>
      simp only [firstKnown, Option.map_eq_some', Prod.mk.injEq] at h
      obtain ⟨⟨j, w⟩, hjw, h1, h2⟩ := h
      subst h1; subst h2
      simpa using ih hjw

theorem firstKnown_min {xs : List (Option ℚ)} :
    ∀ {i : Nat} {v : ℚ}, firstKnown xs = some (i, v) → ∀ q, q < i → xs[q]? = some none := by
  induction xs with
  | nil => intro i v h; simp [firstKnown] at h
  | cons x rest ih =>
    intro i v h q hq
    cases x with
    | some w =>
      simp only [firstKnown, Option.some.injEq, Prod.mk.injEq] at h
      omega
    | none =>
      simp only [firstKnown, Option.map_eq_some', Prod.mk.injEq] at h
      obtain ⟨⟨j, w⟩, hjw, h1, h2⟩ := h
      subst h1; subst h2
      cases q with
      | zero => simp
      | succ q => simpa using ih hjw q (by omega)

theorem firstKnown_of {xs : List (Option ℚ)} :
    ∀ {k : Nat} {v : ℚ}, xs[k]? = some (some v) → (∀ j, j < k → xs[j]? = some none) →
      firstKnown xs = some (k, v) := by
  induction xs with
  | nil => intro k v h _; simp at h
  | cons x rest ih =>
    intro k v h hbelow
    cases k with
    | zero =>
      simp at h
      subst h
      rfl
    | succ k =>
      have hx : x = none := by simpa using hbelow 0 (by omega)
      subst hx
      have := ih (by simpa using h) (fun j hj => by simpa using hbelow (j + 1) (by omega))
      simp [firstKnown, this]

theorem firstKnown_none {xs : List (Option ℚ)} :
    firstKnown xs = none → ∀ (q : Nat) (v : ℚ), xs[q]? ≠ some (some v) := by
  induction xs with
  | nil => intro _ q v; simp
  | cons x rest ih =>
    intro h q v
    cases x with
    | some w => simp [firstKnown] at h
    | none =>
      simp [firstKnown] at h
      cases q with
      | zero => simp
      | succ q => simpa using ih h q v

theorem firstKnown_of_all_none {xs : List (Option ℚ)} (h : ∀ (j : Nat) (v : ℚ),
    xs[j]? ≠ some (some v)) : firstKnown xs = none := by
  induction xs with
  | nil => rfl
  | cons x rest ih =>
    cases x with
    | some w => exact absurd (by simp : (some w :: rest)[0]? = some (some w)) (h 0 w)
    | none =>
      simp [firstKnown]
      exact ih (fun j v => by simpa using h (j + 1) v)

theorem firstKnown_isSome {xs : List (Option ℚ)} {k : Nat} {v : ℚ}
    (h : xs[k]? = some (some v)) : ∃ q, firstKnown xs = some q := by
  cases hk : firstKnown xs with
  | none => exact absurd h (firstKnown_none hk k v)
  | some q => exact ⟨q, rfl⟩

theorem prevKnown_eq {xs : List (Option ℚ)} {pl : Nat} {vl : ℚ} :
    ∀ {q : Nat}, pl < q → xs[pl]? = some (some vl) →
      (∀ r, pl < r → r < q → xs[r]? = some none) →
      prevKnown xs q = some (pl, vl) := by
  intro q
  induction q with
  | zero => omega
  | succ q ih =>
    intro hlt hpl hgap
    rcases Nat.lt_succ_iff_lt_or_eq.mp hlt with h | h
    · have hq : xs[q]? = some none := hgap q h (Nat.lt_succ_self q)
      simp only [prevKnown, hq]
      exact ih h hpl (fun r h1 h2 => hgap r h1 (Nat.lt_succ_of_lt h2))
    · subst h
      simp only [prevKnown, hpl]

theorem prevKnown_isSome {xs : List (Option ℚ)} {r : Nat} {v : ℚ} :
    ∀ {q : Nat}, r < q → xs[r]? = some (some v) → ∃ pv, prevKnown xs q = some pv := by
  intro q
  induction q with
  | zero => omega
  | succ q ih =>
    intro hlt hr
    rcases Nat.lt_succ_iff_lt_or_eq.mp hlt with h | h
    · cases hq : xs[q]? with
      | none => simpa only [prevKnown, hq] using ih h hr
      | some o =>
        cases o with
        | none => simpa only [prevKnown, hq] using ih h hr
        | some w => exact ⟨(q, w), by simp only [prevKnown, hq]⟩
    · subst h
      exact ⟨(r, v), by simp only [prevKnown, hr]⟩

theorem nextKnown_eq {xs : List (Option ℚ)} {q ph : Nat} {vh : ℚ}
    (hlt : q < ph) (hph : xs[ph]? = some (some vh))
    (hgap : ∀ r, q < r → r < ph → xs[r]? = some none) :
    nextKnown xs q = some (ph, vh) := by
  have h1 : (xs.drop (q + 1))[ph - (q + 1)]? = some (some vh) := by
    rw [List.getElem?_drop]
    have : q + 1 + (ph - (q + 1)) = ph := by omega
    rw [this]; exact hph
  have h2 : ∀ j, j < ph - (q + 1) → (xs.drop (q + 1))[j]? = some none := by
    intro j hj
    rw [List.getElem?_drop]
    exact hgap _ (by omega) (by omega)
  unfold nextKnown
  rw [firstKnown_of h1 h2]
  simp only [Option.map_some']
  have hq : q + 1 + (ph - (q + 1)) = ph := by omega
  rw [hq]

theorem nextKnown_none {xs : List (Option ℚ)} {q : Nat}
    (h : ∀ (r : Nat) (v : ℚ), q < r → xs[r]? ≠ some (some v)) : nextKnown xs q = none := by
  unfold nextKnown
  rw [firstKnown_of_all_none]
  · rfl
  · intro j v
    rw [List.getElem?_drop]
    exact h _ v (by omega)

theorem nextKnown_isSome {xs : List (Option ℚ)} {p k : Nat} {v : ℚ}
    (hlt : p < k) (hk : xs[k]? = some (some v)) : ∃ pv, nextKnown xs p = some pv := by
  have h1 : (xs.drop (p + 1))[k - (p + 1)]? = some (some v) := by
    rw [List.getElem?_drop]
    have : p + 1 + (k - (p + 1)) = k := by omega
    rw [this]; exact hk
  obtain ⟨q, hq⟩ := firstKnown_isSome h1
  exact ⟨_, by unfold nextKnown; rw [hq]; rfl⟩

/-! ### Facts about interpolation and zero filling -/

theorem interpolate_length (xs : List (Option ℚ)) : (interpolate xs).length = xs.length := by
  simp [interpolate]

theorem interpolate_getElem? {xs : List (Option ℚ)} {p : Nat} (h : p < xs.length) :
    (interpolate xs)[p]? = some (interpAt xs p) := by
  simp [interpolate, List.getElem?_range h]

theorem interpAt_known {xs : List (Option ℚ)} {p : Nat} {v : ℚ}
    (h : xs[p]? = some (some v)) : interpAt xs p = some v := by
  unfold interpAt
  rw [h]

theorem fillZeroUpto_length : ∀ (i : Nat) (xs : List (Option ℚ)),
    (fillZeroUpto i xs).length = xs.length := by
  intro i xs
  induction xs generalizing i with
  | nil => simp [fillZeroUpto]
  | cons x rest ih =>
    cases i with
    | zero => simp [fillZeroUpto]
    | succ i => simp [fillZeroUpto, ih]

theorem fillZeroUpto_getElem?_le {xs : List (Option ℚ)} :
    ∀ {i p : Nat}, p ≤ i →
      (fillZeroUpto i xs)[p]? = (xs[p]?).map (fun x => some (x.getD 0)) := by
  induction xs with
  | nil => intro i p _; simp [fillZeroUpto]
  | cons x rest ih =>
    intro i p hpi
    cases i with
    | zero =>
      obtain rfl := Nat.le_zero.mp hpi
      simp [fillZeroUpto]
    | succ i =>
      cases p with
      | zero => simp [fillZeroUpto]
      | succ p => simpa [fillZeroUpto] using ih (Nat.le_of_succ_le_succ hpi)

theorem fillZeroUpto_getElem?_gt {xs : List (Option ℚ)} :
    ∀ {i p : Nat}, i < p → (fillZeroUpto i xs)[p]? = xs[p]? := by
  induction xs with
  | nil => intro i p _; simp [fillZeroUpto]
  | cons x rest ih =>
    intro i p hip
    cases i with
    | zero =>
      cases p with
      | zero => omega
      | succ p => simp [fillZeroUpto]
    | succ i =>
      cases p with
      | zero => omega
      | succ p => simpa [fillZeroUpto] using ih (by omega)

theorem fillZeroUpto_drop {xs : List (Option ℚ)} {i : Nat} {v : ℚ}
    (h : xs[i]? = some (some v)) : (fillZeroUpto i xs).drop i = xs.drop i := by
  apply List.ext_getElem?
  intro j
  rw [List.getElem?_drop, List.getElem?_drop]
  cases j with
  | zero => rw [Nat.add_zero, fillZeroUpto_getElem?_le (le_refl i), h]; rfl
  | succ j => exact fillZeroUpto_getElem?_gt (by omega)

/-! ### Facts about the per-column imputation -/

theorem first_valid_index_eq {xs : List (Option ℚ)} {i0 : Nat}
    (h : first_valid_index xs = some i0) : ∃ v, firstKnown xs = some (i0, v) := by
  unfold first_valid_index at h
  cases hk : firstKnown xs with
  | none => rw [hk] at h; simp at h
  | some q =>
    obtain ⟨i, v⟩ := q
    rw [hk] at h
    simp only [Option.map_some', Option.some.injEq] at h
    subst h
    exact ⟨v, rfl⟩

theorem getElem?_lt_length {α : Type} {xs : List α} {i : Nat} {a : α}
    (h : xs[i]? = some a) : i < xs.length := by
  obtain ⟨hlt, -⟩ := List.getElem?_eq_some_iff.mp h
  exact hlt

theorem imputar_columna_of_all_missing (xs : List (Option ℚ))
    (h : first_valid_index xs = none) : imputar_columna xs = fillZeroAll xs := by
  unfold imputar_columna
  rw [h]

theorem imputar_columna_length (xs : List (Option ℚ)) :
    (imputar_columna xs).length = xs.length := by
  unfold imputar_columna
  cases h0 : first_valid_index xs with
  | none => simp [fillZeroAll]
  | some i0 =>
    obtain ⟨v, hk⟩ := first_valid_index_eq h0
    have hlt : i0 < xs.length := getElem?_lt_length (firstKnown_get hk)
    simp only [List.length_append, List.length_take, interpolate_length, List.length_drop,
      fillZeroUpto_length]
    omega

theorem imputar_columna_before {xs : List (Option ℚ)} {i0 p : Nat}
    (h0 : first_valid_index xs = some i0) (hp : p < i0) :
    (imputar_columna xs)[p]? = (xs[p]?).map (fun x => some (x.getD 0)) := by
  obtain ⟨v, hk⟩ := first_valid_index_eq h0
  have hlt : i0 < xs.length := getElem?_lt_length (firstKnown_get hk)
  unfold imputar_columna
  rw [h0]
  have hlen : p < ((fillZeroUpto i0 xs).take i0).length := by
    rw [List.length_take, fillZeroUpto_length]; omega
  rw [List.getElem?_append_left hlen, List.getElem?_take_of_lt hp,
    fillZeroUpto_getElem?_le (le_of_lt hp)]

theorem imputar_columna_after {xs : List (Option ℚ)} {i0 p : Nat}
    (h0 : first_valid_index xs = some i0) (hp : i0 ≤ p) :
    (imputar_columna xs)[p]? = (interpolate (xs.drop i0))[p - i0]? := by
  obtain ⟨v, hk⟩ := first_valid_index_eq h0
  have hv := firstKnown_get hk
  have hlt : i0 < xs.length := getElem?_lt_length hv
  unfold imputar_columna
  rw [h0]
  have hlen : ((fillZeroUpto i0 xs).take i0).length = i0 := by
    rw [List.length_take, fillZeroUpto_length]; omega
  rw [List.getElem?_append_right (by rw [hlen]; exact hp), hlen, fillZeroUpto_drop hv]

/-- A column with no missing entry. -/
def NoneFree (xs : List (Option ℚ)) : Prop := ∀ x ∈ xs, x ≠ none

theorem interpAt_isSome {xs : List (Option ℚ)} {p : Nat} {v0 : ℚ}
    (h0 : xs[0]? = some (some v0)) (hp : p < xs.length) :
    ∃ w, interpAt xs p = some w := by
  cases hc : xs[p]? with
  | none =>
    have := List.getElem?_eq_none_iff.mp hc
    omega
  | some o =>
    cases o with
    | some w => exact ⟨w, interpAt_known hc⟩
    | none =>
      have hp0 : 0 < p := by
        rcases Nat.eq_zero_or_pos p with h | h
        · subst h; rw [h0] at hc; simp at hc
        · exact h
      obtain ⟨⟨pl, vl⟩, hprev⟩ := prevKnown_isSome hp0 h0
      unfold interpAt
      rw [hc, hprev]
      cases hnext : nextKnown xs p with
      | none => exact ⟨vl, rfl⟩
      | some ph => exact ⟨_, rfl⟩

theorem imputar_columna_noneFree (xs : List (Option ℚ)) : NoneFree (imputar_columna xs) := by
  intro x hx
  obtain ⟨p, hget⟩ := List.mem_iff_getElem?.mp hx
  cases h0 : first_valid_index xs with
  | none =>
    rw [imputar_columna_of_all_missing xs h0] at hget
    unfold fillZeroAll at hget
    rw [List.getElem?_map] at hget
    cases hc : xs[p]? with
    | none => rw [hc] at hget; simp at hget
    | some o =>
      rw [hc] at hget
      simp only [Option.map_some', Option.some.injEq] at hget
      rw [← hget]
      simp
  | some i0 =>
    obtain ⟨v, hk⟩ := first_valid_index_eq h0
    have hv := firstKnown_get hk
    by_cases hp : p < i0
    · rw [imputar_columna_before h0 hp] at hget
      cases hc : xs[p]? with
      | none => rw [hc] at hget; simp at hget
      | some o =>
        rw [hc] at hget
        simp only [Option.map_some', Option.some.injEq] at hget
        rw [← hget]
        simp
    · have hp2 : i0 ≤ p := by omega
      rw [imputar_columna_after h0 hp2] at hget
      have hlen : p - i0 < (xs.drop i0).length := by
        have := getElem?_lt_length hget
        rw [interpolate_length] at this
        exact this
      rw [interpolate_getElem? hlen] at hget
      have h00 : (xs.drop i0)[0]? = some (some v) := by
        rw [List.getElem?_drop, Nat.add_zero]
        exact hv
      obtain ⟨w, hw⟩ := interpAt_isSome h00 hlen
      rw [hw] at hget
      simp only [Option.some.injEq] at hget
      rw [← hget]
      simp

theorem interpolate_of_noneFree {xs : List (Option ℚ)} (h : NoneFree xs) :
    interpolate xs = xs := by
  apply List.ext_getElem?
  intro p
  by_cases hp : p < xs.length
  · rw [interpolate_getElem? hp]
    cases hc : xs[p]? with
    | none =>
      have := List.getElem?_eq_none_iff.mp hc
      omega
    | some o =>
      cases o with
      | none => exact absurd rfl (h none (List.getElem?_mem hc))
      | some w => rw [interpAt_known hc]
  · rw [List.getElem?_eq_none (by rw [interpolate_length]; omega),
      List.getElem?_eq_none (by omega)]

theorem imputar_columna_of_noneFree {xs : List (Option ℚ)} (h : NoneFree xs) :
    imputar_columna xs = xs := by
  cases xs with
  | nil => rfl
  | cons x rest =>
    cases x with
    | none => exact absurd rfl (h none (by simp))
    | some v =>
      unfold imputar_columna first_valid_index
      rw [show firstKnown (some v :: rest) = some (0, v) from rfl]
      simp only [Option.map_some']
      have h1 : fillZeroUpto 0 (some v :: rest) = some v :: rest := rfl
      rw [h1, List.take_zero, List.drop_zero, List.nil_append]
      exact interpolate_of_noneFree h

theorem imputar_columna_idem (xs : List (Option ℚ)) :
    imputar_columna (imputar_columna xs) = imputar_columna xs :=
  imputar_columna_of_noneFree (imputar_columna_noneFree xs)

/-! ### Facts about the table-level loop -/

theorem getCol?_setCol_self (df : DataFrame) (c : String) (v : List (Option ℚ)) :
    (df.setCol c v).getCol? c = (df.getCol? c).map (fun _ => v) := by
  unfold DataFrame.setCol DataFrame.getCol?
  induction df.cols with
  | nil => rfl
  | cons p rest ih =>
    simp only [List.map_cons]
    by_cases hp : p.1 = c
    · rw [if_pos hp, List.find?_cons_of_pos _ (by simp [hp]),
        List.find?_cons_of_pos _ (by simp [hp])]
      rfl
    · rw [if_neg hp, List.find?_cons_of_neg _ (by simp [hp]),
        List.find?_cons_of_neg _ (by simp [hp])]
      exact ih

theorem getCol?_setCol_ne (df : DataFrame) {c cq : String} (h : cq ≠ c)
    (v : List (Option ℚ)) : (df.setCol c v).getCol? cq = df.getCol? cq := by
  unfold DataFrame.setCol DataFrame.getCol?
  induction df.cols with
  | nil => rfl
  | cons p rest ih =>
    simp only [List.map_cons]
    by_cases hp : p.1 = cq
    · rw [if_neg (by rw [hp]; exact h), List.find?_cons_of_pos _ (by simp [hp]),
        List.find?_cons_of_pos _ (by simp [hp])]
    · by_cases hpc : p.1 = c
      · rw [if_pos hpc, List.find?_cons_of_neg _ (by simp [hp]),
          List.find?_cons_of_neg _ (by simp [hp])]
        exact ih
      · rw [if_neg hpc, List.find?_cons_of_neg _ (by simp [hp]),
          List.find?_cons_of_neg _ (by simp [hp])]
        exact ih

theorem setCol_index (df : DataFrame) (c : String) (v : List (Option ℚ)) :
    (df.setCol c v).index = df.index := rfl

theorem setCol_names (df : DataFrame) (c : String) (v : List (Option ℚ)) :
    (df.setCol c v).cols.map Prod.fst = df.cols.map Prod.fst := by
  unfold DataFrame.setCol
  simp only [List.map_map]
  apply List.map_congr_left
  intro p _
  by_cases hp : p.1 = c <;> simp [hp]

theorem getCol?_setCol_isSome (df : DataFrame) (c cq : String) (v : List (Option ℚ)) :
    ((df.setCol c v).getCol? cq).isSome = (df.getCol? cq).isSome := by
  by_cases h : cq = c
  · subst h
    rw [getCol?_setCol_self]
    cases df.getCol? cq <;> rfl
  · rw [getCol?_setCol_ne df h v]

theorem imputar_loop_index : ∀ (cs : List String) (df df2 : DataFrame),
    imputar_loop df cs = some df2 → df2.index = df.index := by
  intro cs
  induction cs with
  | nil =>
    intro df df2 h
    simp only [imputar_loop, Option.some.injEq] at h
    subst h
    rfl
  | cons c rest ih =>
    intro df df2 h
    unfold imputar_loop at h
    cases hg : df.getCol? c with
    | none => rw [hg] at h; cases h
    | some xs =>
      rw [hg] at h
      rw [ih _ _ h]
      rfl

theorem imputar_loop_names : ∀ (cs : List String) (df df2 : DataFrame),
    imputar_loop df cs = some df2 → df2.cols.map Prod.fst = df.cols.map Prod.fst := by
  intro cs
  induction cs with
  | nil =>
    intro df df2 h
    simp only [imputar_loop, Option.some.injEq] at h
    subst h
    rfl
  | cons c rest ih =>
    intro df df2 h
    unfold imputar_loop at h
    cases hg : df.getCol? c with
    | none => rw [hg] at h; cases h
    | some xs =>
      rw [hg] at h
      rw [ih _ _ h, setCol_names]

theorem imputar_loop_notmem : ∀ (cs : List String) (df df2 : DataFrame) {c : String},
    c ∉ cs → imputar_loop df cs = some df2 → df2.getCol? c = df.getCol? c := by
  intro cs
  induction cs with
  | nil =>
    intro df df2 c _ h
    simp only [imputar_loop, Option.some.injEq] at h
    subst h
    rfl
  | cons c2 rest ih =>
    intro df df2 c hc h
    simp only [List.mem_cons, not_or] at hc
    unfold imputar_loop at h
    cases hg : df.getCol? c2 with
    | none => rw [hg] at h; cases h
    | some xs =>
      rw [hg] at h
      rw [ih _ _ hc.2 h, getCol?_setCol_ne _ hc.1]

theorem imputar_loop_mem : ∀ (cs : List String) (df df2 : DataFrame) {c : String}
    {xs : List (Option ℚ)}, c ∈ cs → df.getCol? c = some xs →
    imputar_loop df cs = some df2 → df2.getCol? c = some (imputar_columna xs) := by
  intro cs
  induction cs with
  | nil => intro df df2 c xs hc; simp at hc
  | cons c2 rest ih =>
    intro df df2 c xs hc hx h
    unfold imputar_loop at h
    cases hg : df.getCol? c2 with
    | none => rw [hg] at h; cases h
    | some ys =>
      rw [hg] at h
      by_cases hcc : c = c2
      · subst hcc
        rw [hx] at hg
        injection hg with hg
        subst hg
        have h1 : (df.setCol c (imputar_columna xs)).getCol? c = some (imputar_columna xs) := by
          rw [getCol?_setCol_self, hx]
          rfl
        by_cases hcr : c ∈ rest
        · rw [ih _ _ hcr h1 h, imputar_columna_idem]
        · rw [imputar_loop_notmem rest _ _ hcr h, h1]
      · have hcr : c ∈ rest := by
          rcases List.mem_cons.mp hc with h | h
          · exact absurd h hcc
          · exact h
        have h1 : (df.setCol c2 (imputar_columna ys)).getCol? c = some xs := by
          rw [getCol?_setCol_ne _ hcc, hx]
        exact ih _ _ hcr h1 h

theorem imputar_loop_total : ∀ (cs : List String) (df : DataFrame),
    (∀ c ∈ cs, (df.getCol? c).isSome) → ∃ df2, imputar_loop df cs = some df2 := by
  intro cs
  induction cs with
  | nil => intro df _; exact ⟨df, rfl⟩
  | cons c rest ih =>
    intro df h
    have hc : (df.getCol? c).isSome := h c (by simp)
    cases hg : df.getCol? c with
    | none => rw [hg] at hc; simp at hc
    | some xs =>
      obtain ⟨df2, hdf2⟩ := ih (df.setCol c (imputar_columna xs)) (by
        intro c2 hc2
        rw [getCol?_setCol_isSome]
        exact h c2 (by simp [hc2]))
      exact ⟨df2, by unfold imputar_loop; rw [hg]; exact hdf2⟩

theorem imputar_loop_noneFree : ∀ (cs : List String) (df df2 : DataFrame),
    imputar_loop df cs = some df2 →
    ∀ c ∈ cs, ∃ ys, df2.getCol? c = some ys ∧ NoneFree ys := by
  intro cs
  induction cs with
  | nil => intro df df2 _ c hc; simp at hc
  | cons c2 rest ih =>
    intro df df2 h c hc
    unfold imputar_loop at h
    cases hg : df.getCol? c2 with
    | none => rw [hg] at h; cases h
    | some xs =>
      rw [hg] at h
      rcases List.mem_cons.mp hc with hcc | hcr
      · subst hcc
        by_cases hcr : c ∈ rest
        · exact ih _ _ h c hcr
        · refine ⟨imputar_columna xs, ?_, imputar_columna_noneFree xs⟩
          rw [imputar_loop_notmem rest _ _ hcr h, getCol?_setCol_self, hg]
          rfl
      · exact ih _ _ h c hcr

theorem map_setCol_skip {c : String} {xs : List (Option ℚ)} :
    ∀ {rest : List (String × List (Option ℚ))}, c ∉ rest.map Prod.fst →
      rest.map (fun p => if p.1 = c then (p.1, xs) else p) = rest := by
  intro rest
  induction rest with
  | nil => intro _; rfl
  | cons q tail ih =>
    intro h
    simp only [List.map_cons, List.mem_cons, not_or] at h
    simp only [List.map_cons]
    rw [if_neg (fun hq => h.1 (Eq.symm hq)), ih h.2]

theorem map_setCol_eq {c : String} {xs : List (Option ℚ)} :
    ∀ {cols : List (String × List (Option ℚ))}, (cols.map Prod.fst).Nodup →
      (cols.find? (fun p => p.1 == c)).map Prod.snd = some xs →
      cols.map (fun p => if p.1 = c then (p.1, xs) else p) = cols := by
  intro cols
  induction cols with
  | nil => intro _ h; simp at h
  | cons p rest ih =>
    intro hnd h
    simp only [List.map_cons, List.nodup_cons] at hnd
    simp only [List.map_cons]
    by_cases hp : p.1 = c
    · rw [List.find?_cons_of_pos _ (by simp [hp])] at h
      simp only [Option.map_some', Option.some.injEq] at h
      subst h
      rw [if_pos hp, map_setCol_skip (hp ▸ hnd.1)]
    · rw [List.find?_cons_of_neg _ (by simp [hp])] at h
      rw [if_neg hp, ih hnd.2 h]

theorem setCol_eq_self {df : DataFrame} {c : String} {xs : List (Option ℚ)}
    (hnd : (df.cols.map Prod.fst).Nodup) (h : df.getCol? c = some xs) :
    df.setCol c xs = df := by
  unfold DataFrame.getCol? at h
  unfold DataFrame.setCol
  rw [map_setCol_eq hnd h]

theorem imputar_loop_second : ∀ (cs : List String) (df : DataFrame),
    (df.cols.map Prod.fst).Nodup →
    (∀ c ∈ cs, ∃ ys, df.getCol? c = some ys ∧ NoneFree ys) →
    imputar_loop df cs = some df := by
  intro cs
  induction cs with
  | nil => intro df _ _; rfl
  | cons c rest ih =>
    intro df hnd h
    obtain ⟨ys, hy, hnf⟩ := h c (by simp)
    unfold imputar_loop
    rw [hy]
    show imputar_loop (df.setCol c (imputar_columna ys)) rest = some df
    rw [imputar_columna_of_noneFree hnf, setCol_eq_self hnd hy]
    exact ih df hnd (fun c2 hc2 => h c2 (by simp [hc2]))

/-! ### Claim theorems for the imputation function -/

/-- Claim C5: `imputar_datos_consumo` never mutates its input: for every input
table and column list, the caller's table after the call holds exactly the
values, columns and index it held before the call; the returned table is a
separate value. -/
theorem imputar_datos_consumo_no_mutation (df : DataFrame) (cs : List String) :
    (imputar_datos_consumo_call df cs).1 = df := rfl

/-- Claim C7: calling `imputar_datos_consumo` with an empty column list
returns the table unchanged (the untouched copy of the input). -/
theorem imputar_datos_consumo_empty_list (df : DataFrame) :
    imputar_datos_consumo df [] = some df := rfl

/-- Claim C6: every column not listed in `C` is identical between the input
and the output of `imputar_datos_consumo`, and the output table is
structurally identical to the input: same index and same column names in the
same order. -/
theorem imputar_datos_consumo_frame (df : DataFrame) (cs : List String)
    (df2 : DataFrame) (h : imputar_datos_consumo df cs = some df2) :
    df2.index = df.index ∧ df2.cols.map Prod.fst = df.cols.map Prod.fst ∧
      ∀ c, c ∉ cs → df2.getCol? c = df.getCol? c :=
  ⟨imputar_loop_index cs df df2 h, imputar_loop_names cs df df2 h,
    fun _ hc => imputar_loop_notmem cs df df2 hc h⟩

/-- Witness for claim C6 at a concrete two-column table with one target
column. -/
theorem imputar_datos_consumo_frame_witness :
    (⟨[0, 1], [("a", [some 0, some 1]), ("b", [some 2, none])]⟩ : DataFrame).index =
      (⟨[0, 1], [("a", [none, some 1]), ("b", [some 2, none])]⟩ : DataFrame).index ∧
    (⟨[0, 1], [("a", [some 0, some 1]), ("b", [some 2, none])]⟩ :
        DataFrame).cols.map Prod.fst =
      (⟨[0, 1], [("a", [none, some 1]), ("b", [some 2, none])]⟩ :
        DataFrame).cols.map Prod.fst ∧
    ∀ c, c ∉ ["a"] →
      (⟨[0, 1], [("a", [some 0, some 1]), ("b", [some 2, none])]⟩ :
        DataFrame).getCol? c =
      (⟨[0, 1], [("a", [none, some 1]), ("b", [some 2, none])]⟩ : DataFrame).getCol? c :=
  imputar_datos_consumo_frame ⟨[0, 1], [("a", [none, some 1]), ("b", [some 2, none])]⟩
    ["a"] ⟨[0, 1], [("a", [some 0, some 1]), ("b", [some 2, none])]⟩ rfl

/-- Claim C2: a target column with no non-missing value at any position is
replaced by all zeros; the fillna branch is taken and no interpolation is
attempted (`imputar_columna` degenerates to `fillZeroAll`). -/
theorem imputar_datos_consumo_all_missing (df : DataFrame) (cs : List String)
    (c : String) (xs : List (Option ℚ)) (df2 : DataFrame)
    (hc : c ∈ cs) (hx : df.getCol? c = some xs) (hall : ∀ x ∈ xs, x = none)
    (h : imputar_datos_consumo df cs = some df2) :
    first_valid_index xs = none ∧ imputar_columna xs = fillZeroAll xs ∧
      df2.getCol? c = some (List.replicate xs.length (some 0)) := by
  have hfv : first_valid_index xs = none := by
    unfold first_valid_index
    rw [firstKnown_of_all_none]
    · rfl
    · intro j v hj
      exact absurd (hall _ (List.getElem?_mem hj)) (by simp)
  refine ⟨hfv, imputar_columna_of_all_missing xs hfv, ?_⟩
  have hrep : fillZeroAll xs = List.replicate xs.length (some 0) := by
    apply List.ext_getElem?
    intro p
    unfold fillZeroAll
    rw [List.getElem?_map, List.getElem?_replicate]
    by_cases hp : p < xs.length
    · rw [if_pos hp]
      cases hc2 : xs[p]? with
      | none =>
        have := List.getElem?_eq_none_iff.mp hc2
        omega
      | some x =>
        have hxn := hall x (List.getElem?_mem hc2)
        subst hxn
        rfl
    · rw [if_neg hp, List.getElem?_eq_none (by omega)]
      rfl
  rw [imputar_loop_mem cs df df2 hc hx h, imputar_columna_of_all_missing xs hfv, hrep]

/-- Witness for claim C2 at a concrete entirely missing column. -/
theorem imputar_datos_consumo_all_missing_witness :
    first_valid_index [none, none] = none ∧
    imputar_columna [none, none] = fillZeroAll [none, none] ∧
    (⟨[0, 1], [("a", [some 0, some 0])]⟩ : DataFrame).getCol? "a" =
      some (List.replicate ([none, none] : List (Option ℚ)).length (some 0)) :=
  imputar_datos_consumo_all_missing ⟨[0, 1], [("a", [none, none])]⟩ ["a"] "a"
    [none, none] ⟨[0, 1], [("a", [some 0, some 0])]⟩ (by simp) rfl
    (by intro x hx; simpa using hx) rfl

/-- Claim C10: `imputar_datos_consumo` preserves every existing observation:
at every position where a target column holds a non-missing value, the output
holds exactly that value. -/
theorem imputar_datos_consumo_preserves_known (df : DataFrame) (cs : List String)
    (c : String) (xs : List (Option ℚ)) (df2 : DataFrame) (p : Nat) (v : ℚ)
    (hc : c ∈ cs) (hx : df.getCol? c = some xs)
    (h : imputar_datos_consumo df cs = some df2)
    (hp : xs[p]? = some (some v)) :
    ∃ out, df2.getCol? c = some out ∧ out[p]? = some (some v) := by
  refine ⟨imputar_columna xs, imputar_loop_mem cs df df2 hc hx h, ?_⟩
  obtain ⟨⟨i0, v0⟩, hk⟩ := firstKnown_isSome hp
  have h0 : first_valid_index xs = some i0 := by
    unfold first_valid_index
    rw [hk]
    rfl
  have hi0p : i0 ≤ p := by
    by_contra hlt
    have := firstKnown_min hk p (by omega)
    rw [hp] at this
    simp at this
  rw [imputar_columna_after h0 hi0p]
  have hplen : p < xs.length := getElem?_lt_length hp
  have hdlen : p - i0 < (xs.drop i0).length := by
    rw [List.length_drop]
    omega
  rw [interpolate_getElem? hdlen, interpAt_known]
  rw [List.getElem?_drop]
  have he : i0 + (p - i0) = p := by omega
  rw [he]
  exact hp

/-- Witness for claim C10 at a concrete column with a known value. -/
theorem imputar_datos_consumo_preserves_known_witness :
    ∃ out, (⟨[0, 1], [("a", [some 0, some 1])]⟩ : DataFrame).getCol? "a" = some out ∧
      out[1]? = some (some 1) :=
  imputar_datos_consumo_preserves_known ⟨[0, 1], [("a", [none, some 1])]⟩ ["a"] "a"
    [none, some 1] ⟨[0, 1], [("a", [some 0, some 1])]⟩ 1 1 (by simp) rfl rfl rfl

theorem interpAt_interior {xs : List (Option ℚ)} {pl p ph : Nat} {vl vh : ℚ}
    (hcell : xs[p]? = some none)
    (hprev : prevKnown xs p = some (pl, vl))
    (hnext : nextKnown xs p = some (ph, vh)) :
    interpAt xs p =
      some (vl + (vh - vl) * (((p : ℚ) - (pl : ℚ)) / ((ph : ℚ) - (pl : ℚ)))) := by
  unfold interpAt
  rw [hcell, hprev, hnext]

theorem interpAt_ffill {xs : List (Option ℚ)} {pl p : Nat} {vl : ℚ}
    (hcell : xs[p]? = some none)
    (hprev : prevKnown xs p = some (pl, vl))
    (hnext : nextKnown xs p = none) :
    interpAt xs p = some vl := by
  unfold interpAt
  rw [hcell, hprev, hnext]

/-- Claim C1: on a table with a unique sorted index, for a target column with
a first valid position `i0`, `imputar_datos_consumo` sets every missing value
strictly before `i0` to `0`, and fills every missing value bracketed by known
values at positions `pl < p < ph` (at or after `i0`) with the positional
linearly weighted average of the two known values; in particular the input
column `[NaN, NaN, 5, NaN, 10]` becomes `[0, 0, 5, 7.5, 10]`. -/
theorem imputar_datos_consumo_leading_and_linear :
    (∀ (df : DataFrame) (cs : List String) (c : String) (xs : List (Option ℚ))
        (i0 : Nat) (df2 : DataFrame),
      df.SortedIndex → c ∈ cs → df.getCol? c = some xs →
      first_valid_index xs = some i0 →
      imputar_datos_consumo df cs = some df2 →
      ∃ out, df2.getCol? c = some out ∧
        (∀ p, p < i0 → xs[p]? = some none → out[p]? = some (some 0)) ∧
        (∀ pl p ph vl vh, i0 ≤ pl → pl < p → p < ph →
          xs[pl]? = some (some vl) → xs[ph]? = some (some vh) →
          (∀ q, pl < q → q < ph → xs[q]? = some none) →
          out[p]? = some (some (vl * (((ph : ℚ) - (p : ℚ)) / ((ph : ℚ) - (pl : ℚ))) +
            vh * (((p : ℚ) - (pl : ℚ)) / ((ph : ℚ) - (pl : ℚ))))))) ∧
    imputar_datos_consumo
        ⟨[0, 1, 2, 3, 4], [("c", [none, none, some 5, none, some 10])]⟩ ["c"] =
      some ⟨[0, 1, 2, 3, 4], [("c", [some 0, some 0, some 5, some (15 / 2), some 10])]⟩ := by
  constructor
  · intro df cs c xs i0 df2 _ hc hx h0 h
    refine ⟨imputar_columna xs, imputar_loop_mem cs df df2 hc hx h, ?_, ?_⟩
    · intro p hp hcell
      rw [imputar_columna_before h0 hp, hcell]
      rfl
    · intro pl p ph vl vh hi0pl hplp hpph hvl hvh hgap
      have hphlen : ph < xs.length := getElem?_lt_length hvh
      have hi0p : i0 ≤ p := by omega
      have hi0ph : i0 ≤ ph := by omega
      rw [imputar_columna_after h0 hi0p]
      have hdlen : p - i0 < (xs.drop i0).length := by
        rw [List.length_drop]
        omega
      have hcell : (xs.drop i0)[p - i0]? = some none := by
        rw [List.getElem?_drop]
        have he : i0 + (p - i0) = p := by omega
        rw [he]
        exact hgap p hplp hpph
      have hprev : prevKnown (xs.drop i0) (p - i0) = some (pl - i0, vl) := by
        apply prevKnown_eq (by omega)
        · rw [List.getElem?_drop]
          have he : i0 + (pl - i0) = pl := by omega
          rw [he]
          exact hvl
        · intro r h1 h2
          rw [List.getElem?_drop]
          exact hgap (i0 + r) (by omega) (by omega)
      have hnext : nextKnown (xs.drop i0) (p - i0) = some (ph - i0, vh) := by
        apply nextKnown_eq (by omega)
        · rw [List.getElem?_drop]
          have he : i0 + (ph - i0) = ph := by omega
          rw [he]
          exact hvh
        · intro r h1 h2
          rw [List.getElem?_drop]
          exact hgap (i0 + r) (by omega) (by omega)
      rw [interpolate_getElem? hdlen, interpAt_interior hcell hprev hnext]
      congr 2
      rw [Nat.cast_sub hi0p, Nat.cast_sub hi0pl, Nat.cast_sub hi0ph]
      have hne : (ph : ℚ) - (pl : ℚ) ≠ 0 := by
        have hlt : (pl : ℚ) < (ph : ℚ) := by exact_mod_cast (by omega : pl < ph)
        exact sub_ne_zero_of_ne (ne_of_gt hlt)
      have hd : (ph : ℚ) - (i0 : ℚ) - ((pl : ℚ) - (i0 : ℚ)) = (ph : ℚ) - (pl : ℚ) := by
        ring
      rw [hd]
      field_simp
      ring
  · have hcol : imputar_columna [none, none, some 5, none, some 10] =
        [some 0, some 0, some 5, some (15 / 2), some 10] := by
      norm_num [imputar_columna, first_valid_index, firstKnown, fillZeroUpto, interpolate,
        interpAt, prevKnown, nextKnown, List.range_succ]
    have h5 : imputar_datos_consumo
        ⟨[0, 1, 2, 3, 4], [("c", [none, none, some 5, none, some 10])]⟩ ["c"] =
        some ((⟨[0, 1, 2, 3, 4],
          [("c", [none, none, some 5, none, some 10])]⟩ : DataFrame).setCol "c"
            (imputar_columna [none, none, some 5, none, some 10])) := rfl
    rw [h5, hcol]
    rfl

/-- Witness for claim C1 at the concrete column `[NaN, NaN, 5, NaN, 10]`,
whose first valid position is `2`. -/
theorem imputar_datos_consumo_leading_and_linear_witness :
    ∃ out, (⟨[0, 1, 2, 3, 4],
        [("c", [some 0, some 0, some 5, some (15 / 2), some 10])]⟩ :
          DataFrame).getCol? "c" = some out ∧
      (∀ p : Nat, p < 2 → ([none, none, some 5, none, some 10] :
          List (Option ℚ))[p]? = some none → out[p]? = some (some 0)) ∧
      (∀ (pl p ph : Nat) (vl vh : ℚ), 2 ≤ pl → pl < p → p < ph →
        ([none, none, some 5, none, some 10] : List (Option ℚ))[pl]? = some (some vl) →
        ([none, none, some 5, none, some 10] : List (Option ℚ))[ph]? = some (some vh) →
        (∀ q : Nat, pl < q → q < ph →
          ([none, none, some 5, none, some 10] : List (Option ℚ))[q]? = some none) →
        out[p]? = some (some (vl * (((ph : ℚ) - (p : ℚ)) / ((ph : ℚ) - (pl : ℚ))) +
          vh * (((p : ℚ) - (pl : ℚ)) / ((ph : ℚ) - (pl : ℚ)))))) :=
  imputar_datos_consumo_leading_and_linear.1
    ⟨[0, 1, 2, 3, 4], [("c", [none, none, some 5, none, some 10])]⟩ ["c"] "c"
    [none, none, some 5, none, some 10] 2
    ⟨[0, 1, 2, 3, 4], [("c", [some 0, some 0, some 5, some (15 / 2), some 10])]⟩
    (by norm_num [DataFrame.SortedIndex, List.chain'_cons]) (by simp) rfl rfl
    imputar_datos_consumo_leading_and_linear.2

/-- Claim C3: missing values extending beyond the last non-missing value are
filled by holding the last known value forward; in particular
`[NaN, 3, NaN, NaN]` becomes `[0, 3, 3, 3]` and the single-value column
`[NaN, NaN, 7, NaN]` becomes `[0, 0, 7, 7]`. -/
theorem imputar_datos_consumo_trailing :
    (∀ (df : DataFrame) (cs : List String) (c : String) (xs : List (Option ℚ))
        (df2 : DataFrame) (plast : Nat) (vlast : ℚ),
      c ∈ cs → df.getCol? c = some xs →
      xs[plast]? = some (some vlast) →
      (∀ q, plast < q → q < xs.length → xs[q]? = some none) →
      imputar_datos_consumo df cs = some df2 →
      ∃ out, df2.getCol? c = some out ∧
        ∀ p, plast < p → p < xs.length → out[p]? = some (some vlast)) ∧
    imputar_datos_consumo ⟨[0, 1, 2, 3], [("c", [none, some 3, none, none])]⟩ ["c"] =
      some ⟨[0, 1, 2, 3], [("c", [some 0, some 3, some 3, some 3])]⟩ ∧
    imputar_datos_consumo ⟨[0, 1, 2, 3], [("c", [none, none, some 7, none])]⟩ ["c"] =
      some ⟨[0, 1, 2, 3], [("c", [some 0, some 0, some 7, some 7])]⟩ := by
  refine ⟨?_, rfl, rfl⟩
  intro df cs c xs df2 plast vlast hc hx hlast hgap h
  refine ⟨imputar_columna xs, imputar_loop_mem cs df df2 hc hx h, ?_⟩
  intro p hplp hplen
  obtain ⟨⟨i0, v0⟩, hk⟩ := firstKnown_isSome hlast
  have h0 : first_valid_index xs = some i0 := by
    unfold first_valid_index
    rw [hk]
    rfl
  have hi0last : i0 ≤ plast := by
    by_contra hlt
    have := firstKnown_min hk plast (by omega)
    rw [hlast] at this
    simp at this
  have hi0p : i0 ≤ p := by omega
  rw [imputar_columna_after h0 hi0p]
  have hdlen : p - i0 < (xs.drop i0).length := by
    rw [List.length_drop]
    omega
  have hcell : (xs.drop i0)[p - i0]? = some none := by
    rw [List.getElem?_drop]
    have he : i0 + (p - i0) = p := by omega
    rw [he]
    exact hgap p hplp hplen
  have hprev : prevKnown (xs.drop i0) (p - i0) = some (plast - i0, vlast) := by
    apply prevKnown_eq (by omega)
    · rw [List.getElem?_drop]
      have he : i0 + (plast - i0) = plast := by omega
      rw [he]
      exact hlast
    · intro r h1 h2
      rw [List.getElem?_drop]
      exact hgap (i0 + r) (by omega) (by omega)
  have hnext : nextKnown (xs.drop i0) (p - i0) = none := by
    apply nextKnown_none
    intro r v hr
    rw [List.getElem?_drop]
    by_cases hrl : i0 + r < xs.length
    · rw [hgap (i0 + r) (by omega) hrl]
      simp
    · rw [List.getElem?_eq_none (by omega)]
      simp
  rw [interpolate_getElem? hdlen, interpAt_ffill hcell hprev hnext]

/-- Witness for claim C3 at the concrete column `[NaN, 3, NaN, NaN]`, whose
last valid position is `1`. -/
theorem imputar_datos_consumo_trailing_witness :
    ∃ out, (⟨[0, 1, 2, 3], [("c", [some 0, some 3, some 3, some 3])]⟩ :
        DataFrame).getCol? "c" = some out ∧
      ∀ p, 1 < p → p < ([none, some 3, none, none] : List (Option ℚ)).length →
        out[p]? = some (some 3) :=
  imputar_datos_consumo_trailing.1
    ⟨[0, 1, 2, 3], [("c", [none, some 3, none, none])]⟩ ["c"] "c"
    [none, some 3, none, none] ⟨[0, 1, 2, 3], [("c", [some 0, some 3, some 3, some 3])]⟩
    1 3 (by simp) rfl rfl
    (by
      intro q h1 h2
      simp only [List.length_cons, List.length_nil] at h2
      interval_cases q <;> rfl)
    imputar_datos_consumo_trailing.2.1

/-- Claim C4: `imputar_datos_consumo` is idempotent on a table with a unique
sorted index whose listed column names all exist: one application succeeds,
leaves no missing value in the listed columns, and a second application with
the same list returns the same table. -/
theorem imputar_datos_consumo_idempotent (df : DataFrame) (cs : List String)
    (_hs : df.SortedIndex) (hnd : (df.cols.map Prod.fst).Nodup)
    (hex : ∀ c ∈ cs, (df.getCol? c).isSome) :
    ∃ df2, imputar_datos_consumo df cs = some df2 ∧
      imputar_datos_consumo df2 cs = some df2 ∧
      ∀ c ∈ cs, ∀ xs, df2.getCol? c = some xs → ∀ x ∈ xs, x ≠ none := by
  obtain ⟨df2, h2⟩ := imputar_loop_total cs df hex
  have hnf := imputar_loop_noneFree cs df df2 h2
  have hnd2 : (df2.cols.map Prod.fst).Nodup := by
    rw [imputar_loop_names cs df df2 h2]
    exact hnd
  refine ⟨df2, h2, imputar_loop_second cs df2 hnd2 hnf, ?_⟩
  intro c hc xs hxs x hx
  obtain ⟨ys, hys, hnfy⟩ := hnf c hc
  rw [hys] at hxs
  injection hxs with hxs
  subst hxs
  exact hnfy x hx

/-- Witness for claim C4 at a concrete table. -/
theorem imputar_datos_consumo_idempotent_witness :
    ∃ df2, imputar_datos_consumo ⟨[0, 1], [("a", [none, some 1])]⟩ ["a"] = some df2 ∧
      imputar_datos_consumo df2 ["a"] = some df2 ∧
      ∀ c ∈ ["a"], ∀ xs, df2.getCol? c = some xs → ∀ x ∈ xs, x ≠ none :=
  imputar_datos_consumo_idempotent ⟨[0, 1], [("a", [none, some 1])]⟩ ["a"]
    (by norm_num [DataFrame.SortedIndex, List.chain'_cons]) (by simp)
    (by
      intro c hc
      simp only [List.mem_singleton] at hc
      subst hc
      rfl)

/-! ### Facts about the raw table operations and claim theorems for
`crear_indice_fecha` -/

theorem Table.find?_filter_of_mem {c : String} {names : List String}
    (h : c ∈ names) :
    ∀ cols : List (String × List Cell),
      (cols.filter (fun p => !(names.contains p.1))).find? (fun p => p.1 == c) = none := by
  intro cols
  induction cols with
  | nil => rfl
  | cons p rest ih =>
    rw [List.filter_cons]
    by_cases hp : p.1 ∈ names
    · rw [if_neg (by simp [hp])]
      exact ih
    · rw [if_pos (by simp [hp])]
      rw [List.find?_cons_of_neg]
      · exact ih
      · simp only [beq_iff_eq]
        intro hc
        apply hp
        rw [hc]
        exact h

theorem Table.getCol?_dropCols_of_mem {t : Table} {c : String} {names : List String}
    (h : c ∈ names) : (t.dropCols names).getCol? c = none := by
  unfold Table.dropCols Table.getCol?
  rw [Table.find?_filter_of_mem h]
  rfl

theorem Table.find?_filter_of_notmem {c : String} {names : List String}
    (h : c ∉ names) :
    ∀ cols : List (String × List Cell),
      (cols.filter (fun p => !(names.contains p.1))).find? (fun p => p.1 == c) =
        cols.find? (fun p => p.1 == c) := by
  intro cols
  induction cols with
  | nil => rfl
  | cons p rest ih =>
    rw [List.filter_cons]
    by_cases hpc : p.1 = c
    · have hkeep : p.1 ∉ names := fun hh => h (hpc ▸ hh)
      rw [if_pos (by simp [hkeep])]
      rw [List.find?_cons_of_pos _ (by simp [hpc]), List.find?_cons_of_pos _ (by simp [hpc])]
    · by_cases hkeep : p.1 ∈ names
      · rw [if_neg (by simp [hkeep]), List.find?_cons_of_neg _ (by simp [hpc])]
        exact ih
      · rw [if_pos (by simp [hkeep]), List.find?_cons_of_neg _ (by simp [hpc]),
          List.find?_cons_of_neg _ (by simp [hpc])]
        exact ih

theorem Table.getCol?_dropCols_of_notmem {t : Table} {c : String} {names : List String}
    (h : c ∉ names) : (t.dropCols names).getCol? c = t.getCol? c := by
  unfold Table.dropCols Table.getCol?
  rw [Table.find?_filter_of_notmem h]

theorem Table.getCol?_append_right {cols1 cols2 : List (String × List Cell)} {c : String}
    (h : cols1.find? (fun p => p.1 == c) = none) :
    (Table.mk (cols1 ++ cols2)).getCol? c = (Table.mk cols2).getCol? c := by
  unfold Table.getCol?
  rw [List.find?_append, h]
  rfl

theorem Table.find?_eq_none_of_getCol? {t : Table} {c : String}
    (h : t.getCol? c = none) : t.cols.find? (fun p => p.1 == c) = none := by
  unfold Table.getCol? at h
  exact Option.map_eq_none'.mp h

theorem datetimeCol_int :
    ∀ (ys ms : List Cell),
      (∀ yc ∈ ys, ∃ y : ℤ, yc = Cell.num (y : ℚ) ∧ 1678 ≤ y ∧ y ≤ 2261) →
      (∀ mc ∈ ms, ∃ m : ℤ, mc = Cell.num (m : ℚ) ∧ 1 ≤ m ∧ m ≤ 12) →
      ∃ dts, datetimeCol ys ms = some dts ∧
        dts.length = (ys.zip ms).length ∧
        (∀ (i : Nat) (y m : ℤ), ys[i]? = some (Cell.num (y : ℚ)) →
          ms[i]? = some (Cell.num (m : ℚ)) → dts[i]? = some (Cell.dt y m)) := by
  intro ys
  induction ys with
  | nil =>
    intro ms _ _
    refine ⟨[], rfl, rfl, ?_⟩
    intro i y m h1 _
    simp at h1
  | cons yc ytail ih =>
    intro ms hy hm
    cases ms with
    | nil =>
      refine ⟨[], rfl, rfl, ?_⟩
      intro i y m _ h2
      simp at h2
    | cons mc mtail =>
      obtain ⟨y, hyv, hy1, hy2⟩ := hy yc (by simp)
      obtain ⟨m, hmv, hm1, hm2⟩ := hm mc (by simp)
      subst hyv
      subst hmv
      obtain ⟨dts, hdts, hlen, hpt⟩ := ih mtail (fun cc hc => hy cc (by simp [hc]))
        (fun cc hc => hm cc (by simp [hc]))
      have hone : to_datetime_ym (Cell.num (y : ℚ)) (Cell.num (m : ℚ)) =
          some (Cell.dt y m) := by
        show (if ((y : ℚ)).den = 1 ∧ ((m : ℚ)).den = 1 ∧ 1 ≤ ((m : ℚ)).num ∧
            ((m : ℚ)).num ≤ 12 ∧
            12 * 1677 + 9 ≤ 12 * ((y : ℚ)).num + (((m : ℚ)).num - 1) ∧
            12 * ((y : ℚ)).num + (((m : ℚ)).num - 1) ≤ 12 * 2262 + 3 then
          some (Cell.dt ((y : ℚ)).num ((m : ℚ)).num)
          else none) = some (Cell.dt y m)
        rw [if_pos]
        · rw [Rat.num_intCast, Rat.num_intCast]
        · simp only [Rat.num_intCast, Rat.den_intCast]
          refine ⟨trivial, trivial, hm1, hm2, by omega, by omega⟩
      refine ⟨Cell.dt y m :: dts, ?_, ?_, ?_⟩
      · unfold datetimeCol at hdts ⊢
        simp only [List.zip_cons_cons, List.mapM_cons, hone, hdts]
        rfl
      · simp [hlen]
      · intro i y2 m2 h1 h2
        cases i with
        | zero =>
          simp only [List.getElem?_cons_zero, Option.some.injEq] at h1 h2
          have hy2 : y = y2 := by exact_mod_cast Cell.num.inj h1
          have hm2e : m = m2 := by exact_mod_cast Cell.num.inj h2
          subst hy2
          subst hm2e
          simp
        | succ i =>
          simp only [List.getElem?_cons_succ] at h1 h2 ⊢
          exact hpt i y2 m2 h1 h2

/-- Claim C8: on a table with `Year` and `Month` columns and no `Datetime`
column, `crear_indice_fecha` returns a table in which every row carries the
monthly datetime value derived from that row's `Year` and `Month`, and the
`Year` and `Month` columns have been dropped; a table that already has a
`Datetime` column passes through unchanged. -/
theorem crear_indice_fecha_spec :
    (∀ (t : Table) (ys ms : List Cell),
      t.getCol? "Datetime" = none →
      t.getCol? "Year" = some ys → t.getCol? "Month" = some ms →
      (∀ yc ∈ ys, ∃ y : ℤ, yc = Cell.num (y : ℚ) ∧ 1678 ≤ y ∧ y ≤ 2261) →
      (∀ mc ∈ ms, ∃ m : ℤ, mc = Cell.num (m : ℚ) ∧ 1 ≤ m ∧ m ≤ 12) →
      ∃ t1 out dts, crear_indice_fecha t = (t1, some out) ∧
        out.getCol? "Datetime" = some dts ∧
        (∀ (i : Nat) (y m : ℤ), ys[i]? = some (Cell.num (y : ℚ)) →
          ms[i]? = some (Cell.num (m : ℚ)) → dts[i]? = some (Cell.dt y m)) ∧
        out.getCol? "Year" = none ∧ out.getCol? "Month" = none) ∧
    (∀ t : Table, t.hasCol "Datetime" = true → crear_indice_fecha t = (t, some t)) := by
  constructor
  · intro t ys ms hdt hy hm hys hms
    obtain ⟨dts, hdts, hlen, hpt⟩ := datetimeCol_int ys ms hys hms
    have hdtb : t.hasCol "Datetime" = false := by
      unfold Table.hasCol
      rw [hdt]
      rfl
    have hyb : t.hasCol "Year" = true := by
      unfold Table.hasCol
      rw [hy]
      rfl
    have hmb : t.hasCol "Month" = true := by
      unfold Table.hasCol
      rw [hm]
      rfl
    refine ⟨⟨t.cols ++ [("Datetime", dts)]⟩,
      Table.dropCols ⟨t.cols ++ [("Datetime", dts)]⟩ ["Year", "Month"], dts,
      ?_, ?_, hpt, ?_, ?_⟩
    · unfold crear_indice_fecha
      rw [if_neg (by rw [hdtb]; simp), if_pos (by rw [hyb, hmb]; rfl)]
      simp only [hy, hm, hdts]
    · rw [Table.getCol?_dropCols_of_notmem (by simp)]
      rw [Table.getCol?_append_right (Table.find?_eq_none_of_getCol? hdt)]
      rfl
    · exact Table.getCol?_dropCols_of_mem (by simp)
    · exact Table.getCol?_dropCols_of_mem (by simp)
  · intro t ht
    unfold crear_indice_fecha
    rw [if_pos ht]

/-- Witness for claim C8 at a concrete one-row table with integer `Year` and
`Month` columns. -/
theorem crear_indice_fecha_spec_witness :
    ∃ t1 out dts,
      crear_indice_fecha ⟨[("Year", [Cell.num 2020]), ("Month", [Cell.num 5]),
        ("Load", [Cell.num 1])]⟩ = (t1, some out) ∧
      out.getCol? "Datetime" = some dts ∧
      (∀ (i : Nat) (y m : ℤ),
        ([Cell.num 2020] : List Cell)[i]? = some (Cell.num (y : ℚ)) →
        ([Cell.num 5] : List Cell)[i]? = some (Cell.num (m : ℚ)) →
        dts[i]? = some (Cell.dt y m)) ∧
      out.getCol? "Year" = none ∧ out.getCol? "Month" = none :=
  crear_indice_fecha_spec.1 ⟨[("Year", [Cell.num 2020]), ("Month", [Cell.num 5]),
      ("Load", [Cell.num 1])]⟩ [Cell.num 2020] [Cell.num 5] rfl rfl rfl
    (by
      intro yc hc
      simp only [List.mem_singleton] at hc
      subst hc
      exact ⟨2020, by norm_num, by norm_num, by norm_num⟩)
    (by
      intro mc hc
      simp only [List.mem_singleton] at hc
      subst hc
      exact ⟨5, by norm_num, by norm_num, by norm_num⟩)

/-- Claim C9 counterexample: `crear_indice_fecha` is not side-effect-free: on
a table with `Year` and `Month` columns and no `Datetime` column, the caller's
table after the call is not the table passed in (it has gained a `Datetime`
column). -/
theorem crear_indice_fecha_mutates :
    (crear_indice_fecha ⟨[("Year", [Cell.num 2020]), ("Month", [Cell.num 5]),
        ("Load", [Cell.num 1])]⟩).1 ≠
      ⟨[("Year", [Cell.num 2020]), ("Month", [Cell.num 5]), ("Load", [Cell.num 1])]⟩ := by
  intro h
  have h4 : (crear_indice_fecha ⟨[("Year", [Cell.num 2020]), ("Month", [Cell.num 5]),
      ("Load", [Cell.num 1])]⟩).1.cols.length = 4 := rfl
  rw [h] at h4
  simp at h4

/-- Claim C9 amended: `imputar_datos_consumo` is side-effect-free (the
caller's table is unchanged by the call), and `crear_indice_fecha` either
leaves the caller's table unchanged (when a `Datetime` column already exists,
when `Year` or `Month` is absent, or when the conversion raises) or appends
the derived `Datetime` column to the caller's table, keeping every
pre-existing column and value, `Year` and `Month` included, in place. -/
theorem data_loader_mutation_amended :
    (∀ (df : DataFrame) (cs : List String), (imputar_datos_consumo_call df cs).1 = df) ∧
    (∀ t : Table, (crear_indice_fecha t).1 = t ∨
      ∃ dts, (crear_indice_fecha t).1 = ⟨t.cols ++ [("Datetime", dts)]⟩) := by
  constructor
  · intro df cs
    rfl
  · intro t
    by_cases h1 : t.hasCol "Datetime" = true
    · left
      unfold crear_indice_fecha
      rw [if_pos h1]
    · by_cases h2 : (t.hasCol "Year" && t.hasCol "Month") = true
      · cases hy : t.getCol? "Year" with
        | none =>
          left
          unfold crear_indice_fecha
          rw [if_neg h1, if_pos h2]
          simp [hy]
        | some ys =>
          cases hm : t.getCol? "Month" with
          | none =>
            left
            unfold crear_indice_fecha
            rw [if_neg h1, if_pos h2]
            simp [hy, hm]
          | some ms =>
            cases hd : datetimeCol ys ms with
            | none =>
              left
              unfold crear_indice_fecha
              rw [if_neg h1, if_pos h2]
              simp [hy, hm, hd]
            | some dts =>
              right
              refine ⟨dts, ?_⟩
              unfold crear_indice_fecha
              rw [if_neg h1, if_pos h2]
              simp [hy, hm, hd]
      · left
        unfold crear_indice_fecha
        rw [if_neg h1, if_neg h2]
